import Mathlib

set_option maxHeartbeats 1000000

/-!
Verification of the response-normalization core of the deep-research
repository: the two web-search adapters (`ClaudeWebSearch.search` in
`src/ai/claude.py` and `OpenAIWebSearch.search` in `src/ai/openai_ws.py`)
that turn a provider response into the unified `WebSearchResponse`
(final text plus de-duplicated citations plus raw payload).

Python objects with optional attributes are embedded as structures with
`Option` fields (`none` = attribute absent or `None`); Python string
truthiness (`if s:`) is `s ≠ ""` on a present string.
-/

/-- An admitted citation record: the dict `{"url": ..., "title": ...}` both
adapters append to their `citations` list. -/
structure Citation where
  url : String
  title : String
deriving DecidableEq, Repr

/-! ### Claude adapter (`src/ai/claude.py`) -/

/-- A citation object attached to a Claude text block. The source reads
`citation.type` guarded by `hasattr`, and `url` / `title` via
`getattr(citation, _, None)`, so all three fields are optional. -/
structure ClaudeCitationAnn where
  type : Option String
  url : Option String
  title : Option String
deriving DecidableEq, Repr

/-- One content block of a Claude response. `block.type` and (on text
blocks) `block.text` are read directly; `block.citations` is guarded by
`hasattr`, hence optional. -/
structure ClaudeBlock where
  type : String
  text : String
  citations : Option (List ClaudeCitationAnn)
deriving DecidableEq, Repr

/-- The enumeration loop computing `last_search_idx`: the running index `i`
and the best index so far (`none` embeds Python's initial `-1`). -/
def lastSearchIdxAux : List ClaudeBlock → Nat → Option Nat → Option Nat
  | [], _, acc => acc
  | b :: bs, i, acc =>
      lastSearchIdxAux bs (i + 1)
        (if b.type = "web_search_tool_result" then some i else acc)

/-- Index of the last `web_search_tool_result` block, if any. -/
def lastSearchIdx (content : List ClaudeBlock) : Option Nat :=
  lastSearchIdxAux content 0 none

/-- `text_blocks`: all blocks with `block.type == "text"`. -/
def claudeTextBlocks (content : List ClaudeBlock) : List ClaudeBlock :=
  content.filter (fun b => b.type = "text")

/-- `final_text_blocks`: text blocks in `content[last_search_idx + 1:]` when a
search result exists, otherwise all text blocks. -/
def claudeFinalBlocks (content : List ClaudeBlock) : List ClaudeBlock :=
  match lastSearchIdx content with
  | some i => (content.drop (i + 1)).filter (fun b => b.type = "text")
  | none => claudeTextBlocks content

/-- `final_output = "\n".join(final_text_parts)` over the final text blocks. -/
def claudeFinalText (content : List ClaudeBlock) : String :=
  String.intercalate "\n" ((claudeFinalBlocks content).map (fun b => b.text))

/-- The citation admission loop of the Claude adapter, over a sequence of
candidate citation objects with the `citations_seen` set (embedded as the
list of already-admitted URLs):
admit when `citation.type == "web_search_result_location"`, `url` and
`title` are both present and non-empty, and the URL was not seen before. -/
def claudeDedup : List ClaudeCitationAnn → List String → List Citation
  | [], _ => []
  | c :: cs, seen =>
      if c.type = some "web_search_result_location" then
        match c.url, c.title with
        | some u, some t =>
            if u ≠ "" ∧ t ≠ "" ∧ u ∉ seen then
              ⟨u, t⟩ :: claudeDedup cs (u :: seen)
            else
              claudeDedup cs seen
        | _, _ => claudeDedup cs seen
      else
        claudeDedup cs seen

/-- The candidates contributed by one block: its `citations` list when the
attribute is present (`hasattr(block, 'citations') and block.citations`;
an absent attribute, a `None` value and an empty list all contribute no
candidates). -/
def claudeBlockCands (b : ClaudeBlock) : List ClaudeCitationAnn :=
  match b.citations with
  | some cl => cl
  | none => []

/-- The source iterates the final text blocks and, inside each, that block's
citation objects, threading one `citations_seen` set across the whole nested
loop; that is a single pass over the concatenation of the per-block
candidate lists. -/
def claudeCandidates (blocks : List ClaudeBlock) : List ClaudeCitationAnn :=
  blocks.foldr (fun b acc => claudeBlockCands b ++ acc) []

/-- The `citations` list returned by `ClaudeWebSearch.search`. -/
def claudeCitations (content : List ClaudeBlock) : List Citation :=
  claudeDedup (claudeCandidates (claudeFinalBlocks content)) []

/-! ### OpenAI adapter (`src/ai/openai_ws.py`) -/

/-- A `url_citation` annotation object: `type` guarded by `hasattr`, and
`url` / `title` copied into the candidate dict only when present. -/
structure OAAnn where
  type : Option String
  url : Option String
  title : Option String
deriving DecidableEq, Repr

/-- One content block of a message item: optional `text` and optional
`annotations`. -/
structure OAContentBlock where
  text : Option String
  annotations : Option (List OAAnn)
deriving DecidableEq, Repr

/-- One output item: optional `type` and optional `content`. -/
structure OAItem where
  type : Option String
  content : Option (List OAContentBlock)
deriving DecidableEq, Repr

/-- Processing of one annotation: when tagged `url_citation`, build the
candidate dict from the present fields; admit it when both `url` and
`title` are present and non-empty (`citation.get(_)` truthy) and the exact
record is not already in the accumulated list (`citation not in citations`). -/
def oaAnnStep (acc : List Citation) (a : OAAnn) : List Citation :=
  if a.type = some "url_citation" then
    match a.url, a.title with
    | some u, some t =>
        if u ≠ "" ∧ t ≠ "" then
          if (⟨u, t⟩ : Citation) ∈ acc then acc else acc ++ [⟨u, t⟩]
        else acc
    | _, _ => acc
  else acc

/-- The annotation loop over one block's annotation list. -/
def oaDedupAnns (anns : List OAAnn) (acc : List Citation) : List Citation :=
  anns.foldl oaAnnStep acc

/-- Processing of one content block: set `final_output` from `text` only
while it is still empty (`if not final_output and hasattr(content_block,
'text')`), then scan `annotations` when present (an absent attribute, a
`None` value and an empty list all leave the citations unchanged). -/
def oaBlockStep (st : String × List Citation) (b : OAContentBlock) :
    String × List Citation :=
  let fo := if st.1 = "" then
      match b.text with
      | some t => t
      | none => st.1
    else st.1
  let cits := match b.annotations with
    | some anns => oaDedupAnns anns st.2
    | none => st.2
  (fo, cits)

/-- Processing of one output item: only items with `type == "message"` and a
present, non-empty `content` contribute (iterating an empty `content` would
contribute nothing either way). -/
def oaItemStep (st : String × List Citation) (item : OAItem) :
    String × List Citation :=
  if item.type = some "message" then
    match item.content with
    | some blocks => blocks.foldl oaBlockStep st
    | none => st
  else st

/-- The extraction phase of `OpenAIWebSearch.search`: starting from
`final_output = ""` and `citations = []`, walk `response.output` when the
attribute is present (`hasattr(response, 'output') and response.output`). -/
def openaiExtract (output : Option (List OAItem)) : String × List Citation :=
  match output with
  | some items => items.foldl oaItemStep ("", [])
  | none => ("", [])

/-! ### Spec-side characterizations

Definitions written from the spec's wording (§4.1, §4.3, §8), used to state
the claims the adapters are compared against. -/

/-- Spec §4.1 de-duplication by URL: keep each citation's first occurrence,
in order; later candidates with an already-kept URL are discarded. -/
def keepFirstByUrl : List Citation → List Citation
  | [] => []
  | c :: cs => c :: keepFirstByUrl (cs.filter (fun d => d.url ≠ c.url))
termination_by l => l.length
decreasing_by
  simp only [List.length_cons]
  exact Nat.lt_succ_of_le (List.length_filter_le _ _)

/-- De-duplication by the whole (url, title) record: keep each record's
first occurrence, in order; later equal records are discarded. -/
def keepFirstRecord : List Citation → List Citation
  | [] => []
  | c :: cs => c :: keepFirstRecord (cs.filter (fun d => d ≠ c))
termination_by l => l.length
decreasing_by
  simp only [List.length_cons]
  exact Nat.lt_succ_of_le (List.length_filter_le _ _)

/-- The admissible content of one Claude citation candidate: the (url,
title) record when the candidate is tagged `web_search_result_location` and
both fields are present and non-empty, else `none`. -/
def claudeAdmissible (c : ClaudeCitationAnn) : Option Citation :=
  if c.type = some "web_search_result_location" then
    match c.url, c.title with
    | some u, some t => if u ≠ "" ∧ t ≠ "" then some ⟨u, t⟩ else none
    | _, _ => none
  else none

/-- The admissible records of a Claude candidate sequence, in order. -/
def claudeValidCands (l : List ClaudeCitationAnn) : List Citation :=
  l.filterMap claudeAdmissible

/-- The admissible content of one OpenAI annotation: the (url, title)
record when the annotation is tagged `url_citation` and both fields are
present and non-empty, else `none`. -/
def oaAdmissible (a : OAAnn) : Option Citation :=
  if a.type = some "url_citation" then
    match a.url, a.title with
    | some u, some t => if u ≠ "" ∧ t ≠ "" then some ⟨u, t⟩ else none
    | _, _ => none
  else none

/-- The admissible records of an OpenAI annotation sequence, in order. -/
def oaValidRecs (l : List OAAnn) : List Citation :=
  l.filterMap oaAdmissible

/-- Spec §4.3: the text of the first content block bearing a non-empty
`text`, or `""` when there is none. -/
def firstNonEmptyText : List OAContentBlock → String
  | [] => ""
  | b :: bs =>
      match b.text with
      | some t => if t ≠ "" then t else firstNonEmptyText bs
      | none => firstNonEmptyText bs

/-- All content blocks of the `message`-kind items, in order. -/
def oaMessageBlocks (items : List OAItem) : List OAContentBlock :=
  items.foldr
    (fun item acc =>
      (if item.type = some "message" then
        match item.content with
        | some blocks => blocks
        | none => []
      else []) ++ acc) []

/-- The annotation objects contributed by one content block. -/
def oaBlockAnns (b : OAContentBlock) : List OAAnn :=
  match b.annotations with
  | some anns => anns
  | none => []

/-- All annotation objects of a list of content blocks, in order. -/
def oaBlocksAnns (bs : List OAContentBlock) : List OAAnn :=
  bs.foldr (fun b acc => oaBlockAnns b ++ acc) []

/-- All annotation objects of all message content blocks, in order. -/
def oaAllAnns (items : List OAItem) : List OAAnn :=
  oaBlocksAnns (oaMessageBlocks items)

/-- The text component of `oaBlockStep`, in isolation. -/
def oaTextStep (fo : String) (b : OAContentBlock) : String :=
  if fo = "" then
    match b.text with
    | some t => t
    | none => fo
  else fo

/-- The text component of the block loop, in isolation. -/
def oaBlocksText (bs : List OAContentBlock) (fo : String) : String :=
  bs.foldl oaTextStep fo

/-- The text component of the item loop, in isolation. -/
def oaItemsText (items : List OAItem) (fo : String) : String :=
  items.foldl
    (fun fo item =>
      if item.type = some "message" then
        match item.content with
        | some blocks => oaBlocksText blocks fo
        | none => fo
      else fo) fo

/-- Re-injection of an admitted record as a Claude candidate. -/
def citToClaudeAnn (c : Citation) : ClaudeCitationAnn :=
  ⟨some "web_search_result_location", some c.url, some c.title⟩

/-- Re-injection of an admitted record as an OpenAI annotation. -/
def citToOAAnn (c : Citation) : OAAnn :=
  ⟨some "url_citation", some c.url, some c.title⟩

/-! ### Request construction -/

/-- The web-search tool dict of the Claude adapter. -/
structure WebSearchTool where
  type : String
  name : String
  max_uses : Nat
deriving DecidableEq, Repr

/-- The `kwargs` dict passed to `client.messages.create`: the `system` key
is added only when `system_prompt` is truthy. -/
structure ClaudeRequest where
  model : String
  max_tokens : Nat
  messages : List (String × String)
  tools : List WebSearchTool
  system : Option String
deriving DecidableEq, Repr

/-- Construction of the Claude request: one user message holding exactly the
prompt, the web-search tool, and `system` set iff `system_prompt` is truthy
(present and non-empty). -/
def claudeBuildKwargs (model : String) (max_uses max_tokens : Nat)
    (prompt : String) (system_prompt : Option String) : ClaudeRequest :=
  { model := model
    max_tokens := max_tokens
    messages := [("user", prompt)]
    tools := [⟨"web_search_20250305", "web_search", max_uses⟩]
    system :=
      match system_prompt with
      | some s => if s ≠ "" then some s else none
      | none => none }

/-- `full_input` of the OpenAI adapter: the prompt, or
`f"{system_prompt}\n\n{prompt}"` when `system_prompt` is truthy. -/
def openaiFullInput (prompt : String) (system_prompt : Option String) :
    String :=
  match system_prompt with
  | some s => if s ≠ "" then s ++ "\n\n" ++ prompt else prompt
  | none => prompt

/-! ### Raw-response serialization -/

/-- The value stored in `raw_response`: either a successful dump or the
unserialized response object itself. -/
inductive RawResponse (ρ δ : Type) where
  | dumped (d : δ)
  | unserialized (r : ρ)
deriving DecidableEq, Repr

/-- The OpenAI adapter's serialization of the response, with the serializer
abstracted as a fallible function also producing a list of emitted warnings
(`model_dump` when present, else `dict(response)`): run under
`warnings.catch_warnings()` with `simplefilter("ignore")`, so warnings are
discarded, and any exception is caught and replaced by the unserialized
response object. -/
def openaiSerializeRaw {ρ δ ε ω : Type}
    (model_dump : ρ → Except ε (δ × List ω)) (response : ρ) :
    RawResponse ρ δ × List ω :=
  match model_dump response with
  | .ok (d, _w) => (.dumped d, [])
  | .error _ => (.unserialized response, [])

/-- The Claude adapter's serialization of the response: a bare
`response.model_dump()` call with no `try`/`except` and no warning
filter, so warnings reach the ambient handler and an exception propagates
to the caller. -/
def claudeSerializeRaw {ρ δ ε ω : Type}
    (model_dump : ρ → Except ε (δ × List ω)) (response : ρ) :
    Except ε (RawResponse ρ δ × List ω) :=
  match model_dump response with
  | .ok (d, w) => .ok (.dumped d, w)
  | .error e => .error e

/-! ### Lemmas: the de-duplication loops compute keep-first de-duplication -/

theorem claudeDedup_eq_keepFirst :
    ∀ (cands : List ClaudeCitationAnn) (seen : List String),
      claudeDedup cands seen =
        keepFirstByUrl ((claudeValidCands cands).filter
          (fun c => c.url ∉ seen)) := by
  intro cands
  induction cands with
  | nil => intro seen; simp [claudeDedup, claudeValidCands, keepFirstByUrl]
  | cons c cs ih =>
    intro seen
    by_cases htype : c.type = some "web_search_result_location"
    · cases hu : c.url with
      | none =>
        have hadm : claudeAdmissible c = none := by
          simp [claudeAdmissible, htype, hu]
        simp only [claudeDedup, htype, if_pos, hu]
        cases ht : c.title <;>
          simp [claudeValidCands, List.filterMap_cons, hadm, ih,
            claudeValidCands]
      | some u =>
        cases ht : c.title with
        | none =>
          have hadm : claudeAdmissible c = none := by
            simp [claudeAdmissible, htype, hu, ht]
          simp only [claudeDedup, htype, if_pos, hu, ht]
          simp [claudeValidCands, List.filterMap_cons, hadm, ih]
        | some t =>
          by_cases hval : u ≠ "" ∧ t ≠ ""
          · have hadm : claudeAdmissible c = some ⟨u, t⟩ := by
              simp [claudeAdmissible, htype, hu, ht, hval]
            by_cases hseen : u ∈ seen
            · have : ¬(u ≠ "" ∧ t ≠ "" ∧ u ∉ seen) := by tauto
              simp only [claudeDedup, htype, if_pos, hu, ht, this, if_neg,
                not_false_eq_true]
              rw [ih seen]
              congr 1
              simp [claudeValidCands, List.filterMap_cons, hadm,
                List.filter_cons, hseen]
            · have hcond : u ≠ "" ∧ t ≠ "" ∧ u ∉ seen := ⟨hval.1, hval.2, hseen⟩
              have hlhs : claudeDedup (c :: cs) seen =
                  ⟨u, t⟩ :: claudeDedup cs (u :: seen) := by
                simp only [claudeDedup, htype, if_pos, hu, ht]
                rw [if_pos hcond]
              have hfil :
                  (claudeValidCands cs).filter (fun d => d.url ∉ u :: seen) =
                    ((claudeValidCands cs).filter (fun d => d.url ∉ seen)).filter
                      (fun d => d.url ≠ u) := by
                rw [List.filter_filter]
                apply List.filter_congr
                intro d _
                simp [List.mem_cons]
              have hrhs :
                  keepFirstByUrl
                      ((claudeValidCands (c :: cs)).filter
                        (fun c => c.url ∉ seen)) =
                    ⟨u, t⟩ :: keepFirstByUrl
                      (((claudeValidCands cs).filter
                        (fun d => d.url ∉ seen)).filter (fun d => d.url ≠ u)) := by
                have : (claudeValidCands (c :: cs)).filter
                    (fun c => c.url ∉ seen) =
                    ⟨u, t⟩ :: (claudeValidCands cs).filter
                      (fun d => d.url ∉ seen) := by
                  simp [claudeValidCands, List.filterMap_cons, hadm,
                    List.filter_cons, hseen]
                rw [this, keepFirstByUrl]
              rw [hlhs, ih (u :: seen), hrhs, hfil]
          · have hadm : claudeAdmissible c = none := by
              simp only [claudeAdmissible, htype, if_pos, hu, ht]
              simp [hval]
            have : ¬(u ≠ "" ∧ t ≠ "" ∧ u ∉ seen) := by tauto
            simp only [claudeDedup, htype, if_pos, hu, ht, this, if_neg,
              not_false_eq_true]
            simp [claudeValidCands, List.filterMap_cons, hadm, ih]
    · have hadm : claudeAdmissible c = none := by
        simp [claudeAdmissible, htype]
      simp only [claudeDedup, htype, if_neg, not_false_eq_true]
      simp [claudeValidCands, List.filterMap_cons, hadm, ih]

theorem oaDedup_eq_keepFirst :
    ∀ (anns : List OAAnn) (acc : List Citation),
      oaDedupAnns anns acc =
        acc ++ keepFirstRecord ((oaValidRecs anns).filter
          (fun c => c ∉ acc)) := by
  intro anns
  induction anns with
  | nil => intro acc; simp [oaDedupAnns, oaValidRecs, keepFirstRecord]
  | cons a as ih =>
    intro acc
    have hfold : oaDedupAnns (a :: as) acc = oaDedupAnns as (oaAnnStep acc a) := by
      simp [oaDedupAnns, List.foldl_cons]
    by_cases htype : a.type = some "url_citation"
    · cases hu : a.url with
      | none =>
        have hadm : oaAdmissible a = none := by
          simp [oaAdmissible, htype, hu]
        have hstep : oaAnnStep acc a = acc := by
          cases ht2 : a.title <;> simp [oaAnnStep, htype, hu, ht2]
        rw [hfold, hstep, ih]
        simp [oaValidRecs, List.filterMap_cons, hadm]
      | some u =>
        cases ht : a.title with
        | none =>
          have hadm : oaAdmissible a = none := by
            simp [oaAdmissible, htype, hu, ht]
          have hstep : oaAnnStep acc a = acc := by
            simp only [oaAnnStep, htype, if_pos, hu, ht]
          rw [hfold, hstep, ih]
          simp [oaValidRecs, List.filterMap_cons, hadm]
        | some t =>
          by_cases hval : u ≠ "" ∧ t ≠ ""
          · have hadm : oaAdmissible a = some ⟨u, t⟩ := by
              simp [oaAdmissible, htype, hu, ht, hval]
            by_cases hmem : (⟨u, t⟩ : Citation) ∈ acc
            · have hstep : oaAnnStep acc a = acc := by
                simp only [oaAnnStep, htype, if_pos, hu, ht]
                rw [if_pos hval, if_pos hmem]
              rw [hfold, hstep, ih]
              congr 2
              simp [oaValidRecs, List.filterMap_cons, hadm,
                List.filter_cons, hmem]
            · have hstep : oaAnnStep acc a = acc ++ [⟨u, t⟩] := by
                simp only [oaAnnStep, htype, if_pos, hu, ht]
                rw [if_pos hval, if_neg hmem]
              have hfil :
                  (oaValidRecs as).filter (fun c => c ∉ acc ++ [⟨u, t⟩]) =
                    ((oaValidRecs as).filter (fun c => c ∉ acc)).filter
                      (fun c => c ≠ ⟨u, t⟩) := by
                rw [List.filter_filter]
                apply List.filter_congr
                intro d _
                simp [List.mem_append, Bool.and_comm]
              have hrhs :
                  acc ++ keepFirstRecord ((oaValidRecs (a :: as)).filter
                      (fun c => c ∉ acc)) =
                    acc ++ ⟨u, t⟩ :: keepFirstRecord
                      (((oaValidRecs as).filter (fun c => c ∉ acc)).filter
                        (fun c => c ≠ ⟨u, t⟩)) := by
                have : (oaValidRecs (a :: as)).filter (fun c => c ∉ acc) =
                    ⟨u, t⟩ :: (oaValidRecs as).filter (fun c => c ∉ acc) := by
                  simp [oaValidRecs, List.filterMap_cons, hadm,
                    List.filter_cons, hmem]
                rw [this, keepFirstRecord]
              rw [hfold, hstep]
              rw [ih]
              rw [hrhs, hfil]
              simp [List.append_assoc]
          · have hadm : oaAdmissible a = none := by
              simp only [oaAdmissible, htype, if_pos, hu, ht]
              simp [hval]
            have hstep : oaAnnStep acc a = acc := by
              simp only [oaAnnStep, htype, if_pos, hu, ht]
              rw [if_neg hval]
            rw [hfold, hstep, ih]
            simp [oaValidRecs, List.filterMap_cons, hadm]
    · have hadm : oaAdmissible a = none := by
        simp [oaAdmissible, htype]
      have hstep : oaAnnStep acc a = acc := by
        simp [oaAnnStep, htype]
      rw [hfold, hstep, ih]
      simp [oaValidRecs, List.filterMap_cons, hadm]

/-! ### Lemmas about keep-first de-duplication -/

theorem keepFirstByUrl_mem :
    ∀ (l : List Citation) (a : Citation), a ∈ keepFirstByUrl l → a ∈ l := by
  intro l
  induction l using keepFirstByUrl.induct with
  | case1 => intro a h; simp [keepFirstByUrl] at h
  | case2 c cs ih =>
    intro a h
    rw [keepFirstByUrl] at h
    rcases List.mem_cons.mp h with h | h
    · simp [h]
    · exact List.mem_cons_of_mem _ (List.mem_of_mem_filter (ih a h))

theorem keepFirstByUrl_pairwise :
    ∀ l : List Citation,
      (keepFirstByUrl l).Pairwise (fun a b => a.url ≠ b.url) := by
  intro l
  induction l using keepFirstByUrl.induct with
  | case1 => simp [keepFirstByUrl]
  | case2 c cs ih =>
    rw [keepFirstByUrl]
    refine List.Pairwise.cons ?_ ih
    intro a ha
    have := List.mem_of_mem_filter (p := fun d => d.url ≠ c.url)
      (keepFirstByUrl_mem _ a ha)
    have hne : a.url ≠ c.url := by
      have hmem := keepFirstByUrl_mem _ a ha
      have := List.of_mem_filter hmem
      simpa using this
    exact fun hc => hne (by rw [hc])

theorem keepFirstByUrl_fixpoint :
    ∀ l : List Citation,
      l.Pairwise (fun a b => a.url ≠ b.url) → keepFirstByUrl l = l := by
  intro l
  induction l using keepFirstByUrl.induct with
  | case1 => intro _; rw [keepFirstByUrl]
  | case2 c cs ih =>
    intro hp
    rw [keepFirstByUrl]
    have hcs : cs.filter (fun d => d.url ≠ c.url) = cs := by
      apply List.filter_eq_self.mpr
      intro a ha
      have := (List.pairwise_cons.mp hp).1 a ha
      simp
      exact fun hc => this (by rw [hc])
    rw [hcs] at ih ⊢
    rw [ih (List.pairwise_cons.mp hp).2]

theorem keepFirstRecord_mem :
    ∀ (l : List Citation) (a : Citation), a ∈ keepFirstRecord l → a ∈ l := by
  intro l
  induction l using keepFirstRecord.induct with
  | case1 => intro a h; simp [keepFirstRecord] at h
  | case2 c cs ih =>
    intro a h
    rw [keepFirstRecord] at h
    rcases List.mem_cons.mp h with h | h
    · simp [h]
    · exact List.mem_cons_of_mem _ (List.mem_of_mem_filter (ih a h))

theorem keepFirstRecord_nodup :
    ∀ l : List Citation, (keepFirstRecord l).Nodup := by
  intro l
  induction l using keepFirstRecord.induct with
  | case1 => simp [keepFirstRecord]
  | case2 c cs ih =>
    rw [keepFirstRecord]
    refine List.Pairwise.cons ?_ ih
    intro a ha
    have hmem := keepFirstRecord_mem _ a ha
    have := List.of_mem_filter hmem
    simp at this
    exact fun hc => this hc.symm

theorem keepFirstRecord_fixpoint :
    ∀ l : List Citation, l.Nodup → keepFirstRecord l = l := by
  intro l
  induction l using keepFirstRecord.induct with
  | case1 => intro _; rw [keepFirstRecord]
  | case2 c cs ih =>
    intro hp
    rw [keepFirstRecord]
    have hcs : cs.filter (fun d => d ≠ c) = cs := by
      apply List.filter_eq_self.mpr
      intro a ha
      have := (List.pairwise_cons.mp hp).1 a ha
      simp
      exact fun hc => this hc.symm
    rw [hcs] at ih ⊢
    rw [ih (List.pairwise_cons.mp hp).2]

/-! ### Lemmas about admissibility -/

theorem claudeAdmissible_some_fields :
    ∀ (a : ClaudeCitationAnn) (c : Citation),
      claudeAdmissible a = some c → c.url ≠ "" ∧ c.title ≠ "" := by
  intro a c h
  unfold claudeAdmissible at h
  split at h
  · split at h
    · split at h
      · cases h
        simpa using ‹_ ∧ _›
      · cases h
    · cases h
  · cases h

theorem oaAdmissible_some_fields :
    ∀ (a : OAAnn) (c : Citation),
      oaAdmissible a = some c → c.url ≠ "" ∧ c.title ≠ "" := by
  intro a c h
  unfold oaAdmissible at h
  split at h
  · split at h
    · split at h
      · cases h
        simpa using ‹_ ∧ _›
      · cases h
    · cases h
  · cases h

theorem claudeAdmissible_citTo :
    ∀ c : Citation, c.url ≠ "" → c.title ≠ "" →
      claudeAdmissible (citToClaudeAnn c) = some c := by
  intro c hu ht
  simp [claudeAdmissible, citToClaudeAnn, hu, ht]

theorem oaAdmissible_citTo :
    ∀ c : Citation, c.url ≠ "" → c.title ≠ "" →
      oaAdmissible (citToOAAnn c) = some c := by
  intro c hu ht
  simp [oaAdmissible, citToOAAnn, hu, ht]

/-! ### Lemmas: decomposition of the OpenAI extraction fold -/

theorem oaDedupAnns_append :
    ∀ (xs ys : List OAAnn) (acc : List Citation),
      oaDedupAnns (xs ++ ys) acc = oaDedupAnns ys (oaDedupAnns xs acc) := by
  intro xs ys acc
  simp [oaDedupAnns, List.foldl_append]

theorem oaBlocksAnns_append :
    ∀ xs ys : List OAContentBlock,
      oaBlocksAnns (xs ++ ys) = oaBlocksAnns xs ++ oaBlocksAnns ys := by
  intro xs ys
  induction xs with
  | nil => simp [oaBlocksAnns]
  | cons b bs ih => simp [oaBlocksAnns, List.foldr_cons] at ih ⊢; simp [ih]

theorem oaBlockStep_eq :
    ∀ (fo : String) (cits : List Citation) (b : OAContentBlock),
      oaBlockStep (fo, cits) b =
        (oaTextStep fo b, oaDedupAnns (oaBlockAnns b) cits) := by
  intro fo cits b
  cases h : b.annotations <;>
    simp [oaBlockStep, oaTextStep, oaBlockAnns, oaDedupAnns, h]

theorem oaBlocks_decomp :
    ∀ (bs : List OAContentBlock) (fo : String) (cits : List Citation),
      bs.foldl oaBlockStep (fo, cits) =
        (oaBlocksText bs fo, oaDedupAnns (oaBlocksAnns bs) cits) := by
  intro bs
  induction bs with
  | nil => intro fo cits; simp [oaBlocksText, oaBlocksAnns, oaDedupAnns]
  | cons b bs ih =>
    intro fo cits
    rw [List.foldl_cons, oaBlockStep_eq, ih]
    have h1 : oaBlocksText (b :: bs) fo = oaBlocksText bs (oaTextStep fo b) := by
      simp [oaBlocksText, List.foldl_cons]
    have h2 : oaBlocksAnns (b :: bs) = oaBlockAnns b ++ oaBlocksAnns bs := by
      simp [oaBlocksAnns, List.foldr_cons]
    rw [h1, h2, oaDedupAnns_append]

theorem oaMessageBlocks_cons :
    ∀ (item : OAItem) (items : List OAItem),
      oaMessageBlocks (item :: items) =
        (if item.type = some "message" then
          match item.content with
          | some blocks => blocks
          | none => []
        else []) ++ oaMessageBlocks items := by
  intro item items
  simp [oaMessageBlocks, List.foldr_cons]

theorem oaItems_decomp :
    ∀ (items : List OAItem) (fo : String) (cits : List Citation),
      items.foldl oaItemStep (fo, cits) =
        (oaItemsText items fo, oaDedupAnns (oaAllAnns items) cits) := by
  intro items
  induction items with
  | nil =>
    intro fo cits
    simp [oaItemsText, oaAllAnns, oaMessageBlocks, oaBlocksAnns, oaDedupAnns]
  | cons item items ih =>
    intro fo cits
    have hall : oaAllAnns (item :: items) =
        oaBlocksAnns (if item.type = some "message" then
          match item.content with
          | some blocks => blocks
          | none => []
        else []) ++ oaAllAnns items := by
      rw [oaAllAnns, oaMessageBlocks_cons, oaBlocksAnns_append]
      rfl
    by_cases htype : item.type = some "message"
    · cases hc : item.content with
      | some blocks =>
        have hstep : oaItemStep (fo, cits) item = blocks.foldl oaBlockStep (fo, cits) := by
          simp [oaItemStep, htype, hc]
        rw [List.foldl_cons, hstep, oaBlocks_decomp, ih]
        have h1 : oaItemsText (item :: items) fo =
            oaItemsText items (oaBlocksText blocks fo) := by
          simp [oaItemsText, List.foldl_cons, htype, hc, oaBlocksText]
        rw [h1, hall, htype]
        simp only [if_pos, hc]
        rw [oaDedupAnns_append]
      | none =>
        have hstep : oaItemStep (fo, cits) item = (fo, cits) := by
          simp [oaItemStep, htype, hc]
        rw [List.foldl_cons, hstep, ih]
        have h1 : oaItemsText (item :: items) fo = oaItemsText items fo := by
          simp [oaItemsText, List.foldl_cons, htype, hc]
        rw [h1, hall, htype]
        simp only [if_pos, hc]
        simp [oaBlocksAnns]
    · have hstep : oaItemStep (fo, cits) item = (fo, cits) := by
        simp [oaItemStep, htype]
      rw [List.foldl_cons, hstep, ih]
      have h1 : oaItemsText (item :: items) fo = oaItemsText items fo := by
        simp [oaItemsText, List.foldl_cons, htype]
      rw [h1, hall]
      simp [htype, oaBlocksAnns]

/-! ### Lemmas: the OpenAI text component takes the first non-empty text -/

theorem oaBlocksText_of_ne :
    ∀ (bs : List OAContentBlock) (fo : String), fo ≠ "" →
      oaBlocksText bs fo = fo := by
  intro bs
  induction bs with
  | nil => intro fo _; rfl
  | cons b bs ih =>
    intro fo h
    have : oaTextStep fo b = fo := by simp [oaTextStep, h]
    simp [oaBlocksText, List.foldl_cons, this]
    exact ih fo h

theorem oaBlocksText_empty_start :
    ∀ bs : List OAContentBlock, oaBlocksText bs "" = firstNonEmptyText bs := by
  intro bs
  induction bs with
  | nil => rfl
  | cons b bs ih =>
    cases ht : b.text with
    | none =>
      have : oaTextStep "" b = "" := by simp [oaTextStep, ht]
      simp [oaBlocksText, List.foldl_cons, this, firstNonEmptyText, ht]
      exact ih
    | some t =>
      have hstep : oaTextStep "" b = t := by simp [oaTextStep, ht]
      by_cases h : t = ""
      · subst h
        simp [oaBlocksText, List.foldl_cons, hstep, firstNonEmptyText, ht]
        exact ih
      · have h1 : oaBlocksText (b :: bs) "" = oaBlocksText bs t := by
          simp [oaBlocksText, List.foldl_cons, hstep]
        rw [h1, oaBlocksText_of_ne bs t h]
        simp [firstNonEmptyText, ht, h]

theorem firstNonEmptyText_append :
    ∀ xs ys : List OAContentBlock,
      firstNonEmptyText (xs ++ ys) =
        if firstNonEmptyText xs = "" then firstNonEmptyText ys
        else firstNonEmptyText xs := by
  intro xs ys
  induction xs with
  | nil => simp [firstNonEmptyText]
  | cons b bs ih =>
    cases ht : b.text with
    | none => simpa [firstNonEmptyText, ht] using ih
    | some t =>
      by_cases h : t = ""
      · subst h
        simpa [firstNonEmptyText, ht] using ih
      · simp [firstNonEmptyText, ht, h]

theorem oaItemsText_of_ne :
    ∀ (items : List OAItem) (fo : String), fo ≠ "" →
      oaItemsText items fo = fo := by
  intro items
  induction items with
  | nil => intro fo _; rfl
  | cons item items ih =>
    intro fo h
    have hstep : (if item.type = some "message" then
        match item.content with
        | some blocks => oaBlocksText blocks fo
        | none => fo
      else fo) = fo := by
      by_cases htype : item.type = some "message"
      · cases hc : item.content <;> simp [htype, hc, oaBlocksText_of_ne _ fo h]
      · simp [htype]
    have h1 : oaItemsText (item :: items) fo =
        oaItemsText items (if item.type = some "message" then
          match item.content with
          | some blocks => oaBlocksText blocks fo
          | none => fo
        else fo) := by
      simp [oaItemsText, List.foldl_cons]
    rw [h1, hstep]
    exact ih fo h

theorem oaItemsText_empty_start :
    ∀ items : List OAItem,
      oaItemsText items "" = firstNonEmptyText (oaMessageBlocks items) := by
  intro items
  induction items with
  | nil => rfl
  | cons item items ih =>
    by_cases htype : item.type = some "message"
    · cases hc : item.content with
      | some blocks =>
        have h1 : oaItemsText (item :: items) "" =
            oaItemsText items (oaBlocksText blocks "") := by
          simp [oaItemsText, List.foldl_cons, htype, hc]
        have h2 : oaMessageBlocks (item :: items) =
            blocks ++ oaMessageBlocks items := by
          rw [oaMessageBlocks_cons, htype]
          simp [hc]
        rw [h1, h2, oaBlocksText_empty_start, firstNonEmptyText_append]
        by_cases h : firstNonEmptyText blocks = ""
        · rw [h, if_pos rfl, ih]
        · rw [if_neg h, oaItemsText_of_ne items _ h]
      | none =>
        have h1 : oaItemsText (item :: items) "" = oaItemsText items "" := by
          simp [oaItemsText, List.foldl_cons, htype, hc]
        have h2 : oaMessageBlocks (item :: items) = oaMessageBlocks items := by
          rw [oaMessageBlocks_cons, htype]
          simp [hc]
        rw [h1, h2, ih]
    · have h1 : oaItemsText (item :: items) "" = oaItemsText items "" := by
        simp [oaItemsText, List.foldl_cons, htype]
      have h2 : oaMessageBlocks (item :: items) = oaMessageBlocks items := by
        rw [oaMessageBlocks_cons]
        simp [htype]
      rw [h1, h2, ih]

/-! ### Lemmas: locating the last tool-result block -/

theorem lastSearchIdxAux_no_result :
    ∀ (l : List ClaudeBlock) (i : Nat) (acc : Option Nat),
      (∀ b ∈ l, b.type ≠ "web_search_tool_result") →
      lastSearchIdxAux l i acc = acc := by
  intro l
  induction l with
  | nil => intro i acc _; rfl
  | cons b bs ih =>
    intro i acc h
    have hb : b.type ≠ "web_search_tool_result" := h b (List.mem_cons_self b bs)
    simp only [lastSearchIdxAux, hb, if_neg, not_false_eq_true]
    exact ih (i + 1) acc (fun x hx => h x (List.mem_cons_of_mem b hx))

theorem lastSearchIdxAux_append :
    ∀ (l l' : List ClaudeBlock) (i : Nat) (acc : Option Nat),
      lastSearchIdxAux (l ++ l') i acc =
        lastSearchIdxAux l' (i + l.length) (lastSearchIdxAux l i acc) := by
  intro l
  induction l with
  | nil => intro l' i acc; simp [lastSearchIdxAux]
  | cons b bs ih =>
    intro l' i acc
    simp only [List.cons_append, lastSearchIdxAux, List.append_eq]
    rw [ih]
    congr 1
    simp [List.length_cons]
    omega

theorem lastSearchIdx_split :
    ∀ (l r : List ClaudeBlock) (tr : ClaudeBlock),
      tr.type = "web_search_tool_result" →
      (∀ b ∈ r, b.type ≠ "web_search_tool_result") →
      lastSearchIdx (l ++ tr :: r) = some l.length := by
  intro l r tr htr hr
  rw [lastSearchIdx, lastSearchIdxAux_append]
  simp only [lastSearchIdxAux, htr, if_pos]
  rw [lastSearchIdxAux_no_result r _ _ hr]
  simp

theorem claudeFinalBlocks_split :
    ∀ (l r : List ClaudeBlock) (tr : ClaudeBlock),
      tr.type = "web_search_tool_result" →
      (∀ b ∈ r, b.type ≠ "web_search_tool_result") →
      claudeFinalBlocks (l ++ tr :: r) = r.filter (fun b => b.type = "text") := by
  intro l r tr htr hr
  have hdrop : (l ++ tr :: r).drop (l.length + 1) = r := by
    have : l ++ tr :: r = (l ++ [tr]) ++ r := by simp
    rw [this]
    exact List.drop_left' (by simp)
  have h1 : claudeFinalBlocks (l ++ tr :: r) =
      ((l ++ tr :: r).drop (l.length + 1)).filter (fun b => b.type = "text") := by
    rw [claudeFinalBlocks, lastSearchIdx_split l r tr htr hr]
  rw [h1, hdrop]

theorem claudeFinalBlocks_no_result :
    ∀ content : List ClaudeBlock,
      (∀ b ∈ content, b.type ≠ "web_search_tool_result") →
      claudeFinalBlocks content = claudeTextBlocks content := by
  intro content h
  rw [claudeFinalBlocks, lastSearchIdx, lastSearchIdxAux_no_result content 0 none h]

/-! ### Master characterizations of the two adapters -/

theorem claudeDedup_nil_seen :
    ∀ cands : List ClaudeCitationAnn,
      claudeDedup cands [] = keepFirstByUrl (claudeValidCands cands) := by
  intro cands
  rw [claudeDedup_eq_keepFirst]
  congr 1
  apply List.filter_eq_self.mpr
  intro a _
  simp

theorem oaDedup_nil_acc :
    ∀ anns : List OAAnn,
      oaDedupAnns anns [] = keepFirstRecord (oaValidRecs anns) := by
  intro anns
  rw [oaDedup_eq_keepFirst]
  simp only [List.nil_append]
  congr 1
  apply List.filter_eq_self.mpr
  intro a _
  simp

theorem claudeCitations_eq (content : List ClaudeBlock) :
    claudeCitations content =
      keepFirstByUrl (claudeValidCands
        (claudeCandidates (claudeFinalBlocks content))) := by
  rw [claudeCitations, claudeDedup_nil_seen]

theorem openaiExtract_eq (items : List OAItem) :
    openaiExtract (some items) =
      (firstNonEmptyText (oaMessageBlocks items),
        keepFirstRecord (oaValidRecs (oaAllAnns items))) := by
  show items.foldl oaItemStep ("", []) = _
  rw [oaItems_decomp, oaItemsText_empty_start, oaDedup_nil_acc]

/-! ### Auxiliary facts about valid candidates and empty shapes -/

theorem claudeValidCands_fields :
    ∀ (l : List ClaudeCitationAnn) (c : Citation),
      c ∈ claudeValidCands l → c.url ≠ "" ∧ c.title ≠ "" := by
  intro l c h
  obtain ⟨a, _, ha⟩ := List.mem_filterMap.mp h
  exact claudeAdmissible_some_fields a c ha

theorem oaValidRecs_fields :
    ∀ (l : List OAAnn) (c : Citation),
      c ∈ oaValidRecs l → c.url ≠ "" ∧ c.title ≠ "" := by
  intro l c h
  obtain ⟨a, _, ha⟩ := List.mem_filterMap.mp h
  exact oaAdmissible_some_fields a c ha

theorem filterMap_filter_isSome {α β : Type} (f : α → Option β) :
    ∀ l : List α, (l.filter (fun a => (f a).isSome)).filterMap f = l.filterMap f := by
  intro l
  induction l with
  | nil => rfl
  | cons a l ih =>
    cases h : f a <;>
      simp [List.filter_cons, List.filterMap_cons, h, ih]

theorem claudeFinalBlocks_no_text :
    ∀ content : List ClaudeBlock,
      (∀ b ∈ content, b.type ≠ "text") → claudeFinalBlocks content = [] := by
  intro content h
  rw [claudeFinalBlocks]
  cases hls : lastSearchIdx content with
  | none =>
    apply List.filter_eq_nil_iff.mpr
    intro b hb
    simpa using h b hb
  | some i =>
    apply List.filter_eq_nil_iff.mpr
    intro b hb
    simpa using h b (List.mem_of_mem_drop hb)

theorem oaMessageBlocks_mem :
    ∀ (items : List OAItem) (b : OAContentBlock), b ∈ oaMessageBlocks items →
      ∃ it ∈ items, ∃ bs, it.content = some bs ∧ b ∈ bs := by
  intro items
  induction items with
  | nil => intro b h; simp [oaMessageBlocks] at h
  | cons item items ih =>
    intro b h
    rw [oaMessageBlocks_cons] at h
    rcases List.mem_append.mp h with h | h
    · by_cases htype : item.type = some "message"
      · rw [if_pos htype] at h
        cases hc : item.content with
        | none => rw [hc] at h; simp at h
        | some bs =>
          rw [hc] at h
          exact ⟨item, List.mem_cons_self item items, bs, hc, h⟩
      · rw [if_neg htype] at h; simp at h
    · obtain ⟨it, hit, bs, hbs, hb⟩ := ih b h
      exact ⟨it, List.mem_cons_of_mem item hit, bs, hbs, hb⟩

theorem oaMessageBlocks_no_message :
    ∀ items : List OAItem,
      (∀ it ∈ items, it.type ≠ some "message") → oaMessageBlocks items = [] := by
  intro items
  induction items with
  | nil => intro _; rfl
  | cons item items ih =>
    intro h
    rw [oaMessageBlocks_cons,
      if_neg (h item (List.mem_cons_self item items)), List.nil_append]
    exact ih (fun it hit => h it (List.mem_cons_of_mem item hit))

theorem firstNonEmptyText_all_empty :
    ∀ bs : List OAContentBlock,
      (∀ b ∈ bs, b.text = none ∨ b.text = some "") →
      firstNonEmptyText bs = "" := by
  intro bs
  induction bs with
  | nil => intro _; rfl
  | cons b bs ih =>
    intro h
    rcases h b (List.mem_cons_self b bs) with hb | hb <;>
      simp [firstNonEmptyText, hb] <;>
      exact ih (fun x hx => h x (List.mem_cons_of_mem b hx))

theorem oaBlocksAnns_no_anns :
    ∀ bs : List OAContentBlock,
      (∀ b ∈ bs, b.annotations = none) → oaBlocksAnns bs = [] := by
  intro bs
  induction bs with
  | nil => intro _; rfl
  | cons b bs ih =>
    intro h
    have hb : oaBlockAnns b = [] := by
      rw [oaBlockAnns, h b (List.mem_cons_self b bs)]
    simp only [oaBlocksAnns, List.foldr_cons] at ih ⊢
    rw [hb, List.nil_append]
    exact ih (fun x hx => h x (List.mem_cons_of_mem b hx))

/-! ### Claims -/

/-- Claim C1 (counterexample): the de-duplication of the OpenAI adapter is by
the whole (url, title) record, not by URL: on a response whose message block
carries two `url_citation` annotations with the same URL but different
titles, the returned citations list contains that URL twice, so "each URL
appears at most once" fails as stated. Moreover, in the Claude adapter, when
the first candidate bearing a URL lacks a title, the admitted citation for
that URL carries the title of a later candidate, not of the URL's first
occurrence. -/
theorem claim_C1_counterexample :
    (openaiExtract (some [⟨some "message", some [⟨none,
        some [⟨some "url_citation", some "https://e.com", some "T1"⟩,
              ⟨some "url_citation", some "https://e.com", some "T2"⟩]⟩]⟩])).2 =
      [⟨"https://e.com", "T1"⟩, ⟨"https://e.com", "T2"⟩] ∧
    claudeDedup [⟨some "web_search_result_location", some "u", none⟩,
        ⟨some "web_search_result_location", some "u", some "T2"⟩] [] =
      [⟨"u", "T2"⟩] := by
  constructor <;> rfl

/-- Claim C1 (amended): in the Claude adapter the citations list is the
keep-first-by-URL de-duplication of the admissible candidates (first
admissible occurrence of each URL wins, supplying the title, in encounter
order), and URLs are pairwise distinct; in the OpenAI adapter the citations
list is the keep-first de-duplication by the whole (url, title) record
(records are pairwise distinct, in encounter order, but one URL may recur
with different titles). -/
theorem claim_C1_amended :
    (∀ cands : List ClaudeCitationAnn,
      claudeDedup cands [] = keepFirstByUrl (claudeValidCands cands)) ∧
    (∀ content : List ClaudeBlock,
      (claudeCitations content).Pairwise (fun a b => a.url ≠ b.url)) ∧
    (∀ anns : List OAAnn,
      oaDedupAnns anns [] = keepFirstRecord (oaValidRecs anns)) ∧
    (∀ items : List OAItem, ((openaiExtract (some items)).2).Nodup) := by
  refine ⟨claudeDedup_nil_seen, ?_, oaDedup_nil_acc, ?_⟩
  · intro content
    rw [claudeCitations_eq]
    exact keepFirstByUrl_pairwise _
  · intro items
    rw [openaiExtract_eq]
    exact keepFirstRecord_nodup _

/-- Claim C2: for adapter A, when the content holds a tool-result block,
`finalText` is the newline-joined texts of exactly the text-kind blocks that
occur strictly after the last tool-result block (the content is written as
`l ++ tr :: r` with no tool-result in the suffix `r`). -/
theorem claim_C2_boundary_rule (l r : List ClaudeBlock) (tr : ClaudeBlock)
    (htr : tr.type = "web_search_tool_result")
    (hr : ∀ b ∈ r, b.type ≠ "web_search_tool_result") :
    claudeFinalText (l ++ tr :: r) =
      String.intercalate "\n"
        ((r.filter (fun b => b.type = "text")).map (fun b => b.text)) := by
  rw [claudeFinalText, claudeFinalBlocks_split l r tr htr hr]

/-- Claim C2 (witness): on `[text "thinking", toolResult, text "searching",
toolResult, text "answer"]` the final text is `"answer"` alone. -/
theorem claim_C2_witness :
    claudeFinalText [⟨"text", "thinking", none⟩,
      ⟨"web_search_tool_result", "", none⟩, ⟨"text", "searching", none⟩,
      ⟨"web_search_tool_result", "", none⟩, ⟨"text", "answer", none⟩] =
      "answer" := by
  have h := claim_C2_boundary_rule
    [⟨"text", "thinking", none⟩, ⟨"web_search_tool_result", "", none⟩,
      ⟨"text", "searching", none⟩]
    [⟨"text", "answer", none⟩] ⟨"web_search_tool_result", "", none⟩
    rfl (by decide)
  exact h.trans rfl

/-- Claim C4 (counterexample): in the OpenAI adapter the first text-bearing
content block does not always fix `finalText`: with message content blocks
`[text="", text="B"]` the result is `"B"`, not the first block's empty
text. -/
theorem claim_C4_counterexample :
    (openaiExtract (some [⟨some "message",
        some [⟨some "", none⟩, ⟨some "B", none⟩]⟩])).1 = "B" ∧
    ("B" : String) ≠ "" := by
  exact ⟨rfl, by decide⟩

/-- Claim C4 (amended): for every item list received by adapter B,
`finalText` is the text of the first message content block bearing a
non-empty text (so an empty-text block does not stop the scan; if no block
bears non-empty text, `finalText = ""`), while the citations are collected
from the annotations of ALL message content blocks, including those after
the block that supplied the text. -/
theorem claim_C4_amended (items : List OAItem) :
    openaiExtract (some items) =
      (firstNonEmptyText (oaMessageBlocks items),
        keepFirstRecord (oaValidRecs (oaAllAnns items))) :=
  openaiExtract_eq items

/-- Claim C10: in adapter B an empty-text block does not fix `finalText`:
prepending a block whose `text` is the empty string leaves `finalText`
unchanged, and when every text attribute among the message content blocks
is absent or empty, `finalText` is the empty string. -/
theorem claim_C10_empty_text_guard :
    (∀ (bs : List OAContentBlock) (items : List OAItem),
      (openaiExtract (some (⟨some "message",
          some ((⟨some "", none⟩ : OAContentBlock) :: bs)⟩ :: items))).1 =
        (openaiExtract (some ((⟨some "message", some bs⟩ : OAItem) :: items))).1) ∧
    (∀ items : List OAItem,
      (∀ b ∈ oaMessageBlocks items, b.text = none ∨ b.text = some "") →
      (openaiExtract (some items)).1 = "") := by
  constructor
  · intro bs items
    rw [openaiExtract_eq, openaiExtract_eq]
    simp only
    rw [oaMessageBlocks_cons, oaMessageBlocks_cons]
    simp [firstNonEmptyText]
  · intro items h
    rw [openaiExtract_eq]
    exact firstNonEmptyText_all_empty _ h

/-- Claim C10 (witness): all-empty texts give `finalText = ""`, and an
empty-text block ahead of `text="B"` leaves `finalText` as for `[text="B"]`
alone. -/
theorem claim_C10_witness :
    (openaiExtract (some [⟨some "message",
        some [⟨some "", none⟩, ⟨some "", none⟩]⟩])).1 = "" ∧
    (openaiExtract (some [(⟨some "message",
        some [⟨some "", none⟩, ⟨some "B", none⟩]⟩ : OAItem)])).1 =
      (openaiExtract (some [(⟨some "message",
        some [⟨some "B", none⟩]⟩ : OAItem)])).1 :=
  ⟨claim_C10_empty_text_guard.2 _ (by decide),
    claim_C10_empty_text_guard.1 [⟨some "B", none⟩] []⟩

/-- Claim C5: in both adapters a candidate lacking a (present, non-empty)
url or title never reaches the returned citations list: every admitted
citation has both fields non-empty, and dropping all inadmissible
candidates from the input changes nothing. -/
theorem claim_C5_both_fields :
    (∀ (content : List ClaudeBlock) (c : Citation),
      c ∈ claudeCitations content → c.url ≠ "" ∧ c.title ≠ "") ∧
    (∀ (output : Option (List OAItem)) (c : Citation),
      c ∈ (openaiExtract output).2 → c.url ≠ "" ∧ c.title ≠ "") ∧
    (∀ (cands : List ClaudeCitationAnn) (seen : List String),
      claudeDedup cands seen =
        claudeDedup (cands.filter (fun c => (claudeAdmissible c).isSome)) seen) ∧
    (∀ (anns : List OAAnn) (acc : List Citation),
      oaDedupAnns anns acc =
        oaDedupAnns (anns.filter (fun a => (oaAdmissible a).isSome)) acc) := by
  refine ⟨?_, ?_, ?_, ?_⟩
  · intro content c hc
    rw [claudeCitations_eq] at hc
    exact claudeValidCands_fields _ c (keepFirstByUrl_mem _ c hc)
  · intro output c hc
    cases output with
    | none => simp [openaiExtract] at hc
    | some items =>
      rw [openaiExtract_eq] at hc
      exact oaValidRecs_fields _ c (keepFirstRecord_mem _ c hc)
  · intro cands seen
    rw [claudeDedup_eq_keepFirst, claudeDedup_eq_keepFirst]
    have : claudeValidCands (cands.filter (fun c => (claudeAdmissible c).isSome)) =
        claudeValidCands cands := by
      rw [claudeValidCands, claudeValidCands, filterMap_filter_isSome]
    rw [this]
  · intro anns acc
    rw [oaDedup_eq_keepFirst, oaDedup_eq_keepFirst]
    have : oaValidRecs (anns.filter (fun a => (oaAdmissible a).isSome)) =
        oaValidRecs anns := by
      rw [oaValidRecs, oaValidRecs, filterMap_filter_isSome]
    rw [this]

/-- Claim C5 (witness): a fully admissible candidate is admitted with both
fields non-empty. -/
theorem claim_C5_witness :
    ((⟨"u", "t"⟩ : Citation) ∈ claudeCitations [⟨"text", "x",
        some [⟨some "web_search_result_location", some "u", some "t"⟩]⟩]) ∧
    (("u" : String) ≠ "" ∧ ("t" : String) ≠ "") :=
  ⟨by decide, claim_C5_both_fields.1
    [⟨"text", "x", some [⟨some "web_search_result_location", some "u", some "t"⟩]⟩]
    ⟨"u", "t"⟩ (by decide)⟩

/-- Claim C6: for adapter A, when the content holds no tool-result block,
all text blocks are eligible and `finalText` is their texts joined by
single newlines. -/
theorem claim_C6_no_tool_result (content : List ClaudeBlock)
    (h : ∀ b ∈ content, b.type ≠ "web_search_tool_result") :
    claudeFinalText content =
      String.intercalate "\n"
        ((content.filter (fun b => b.type = "text")).map (fun b => b.text)) := by
  rw [claudeFinalText, claudeFinalBlocks_no_result content h, claudeTextBlocks]

/-- Claim C6 (witness): `[text1, text2]` with no tool-result gives
`"text1\ntext2"`. -/
theorem claim_C6_witness :
    claudeFinalText [⟨"text", "text1", none⟩, ⟨"text", "text2", none⟩] =
      "text1\ntext2" := by
  have h := claim_C6_no_tool_result
    [⟨"text", "text1", none⟩, ⟨"text", "text2", none⟩] (by decide)
  exact h.trans rfl

/-- Claim C7: zero extractable content yields the empty result without any
failure: for adapter A a content list without text blocks gives
`("", [])`; for adapter B a missing output, an output without message
items, or message items whose blocks carry no text and no annotations all
give `("", [])`. -/
theorem claim_C7_empty_inputs :
    (∀ content : List ClaudeBlock, (∀ b ∈ content, b.type ≠ "text") →
      claudeFinalText content = "" ∧ claudeCitations content = []) ∧
    openaiExtract none = ("", []) ∧
    (∀ items : List OAItem, (∀ it ∈ items, it.type ≠ some "message") →
      openaiExtract (some items) = ("", [])) ∧
    (∀ items : List OAItem,
      (∀ it ∈ items, ∀ bs, it.content = some bs →
        ∀ b ∈ bs, b.text = none ∧ b.annotations = none) →
      openaiExtract (some items) = ("", [])) := by
  refine ⟨?_, rfl, ?_, ?_⟩
  · intro content h
    have hb := claudeFinalBlocks_no_text content h
    constructor
    · rw [claudeFinalText, hb]
      rfl
    · rw [claudeCitations, hb]
      rfl
  · intro items h
    rw [openaiExtract_eq, oaAllAnns, oaMessageBlocks_no_message items h]
    simp [firstNonEmptyText, oaBlocksAnns, oaValidRecs, keepFirstRecord]
  · intro items h
    have htext : ∀ b ∈ oaMessageBlocks items, b.text = none ∨ b.text = some "" := by
      intro b hb
      obtain ⟨it, hit, bs, hbs, hbbs⟩ := oaMessageBlocks_mem items b hb
      exact Or.inl (h it hit bs hbs b hbbs).1
    have hann : oaBlocksAnns (oaMessageBlocks items) = [] := by
      apply oaBlocksAnns_no_anns
      intro b hb
      obtain ⟨it, hit, bs, hbs, hbbs⟩ := oaMessageBlocks_mem items b hb
      exact (h it hit bs hbs b hbbs).2
    rw [openaiExtract_eq, firstNonEmptyText_all_empty _ htext, oaAllAnns, hann]
    simp [oaValidRecs, keepFirstRecord]

/-- Claim C7 (witness): a tool-result-only Claude content and a
search-call-only OpenAI output both give the empty result. -/
theorem claim_C7_witness :
    claudeFinalText [⟨"web_search_tool_result", "", none⟩] = "" ∧
    claudeCitations [⟨"web_search_tool_result", "", none⟩] = [] ∧
    openaiExtract (some [⟨some "web_search_call", none⟩]) = ("", []) :=
  ⟨(claim_C7_empty_inputs.1 _ (by decide)).1,
    (claim_C7_empty_inputs.1 _ (by decide)).2,
    claim_C7_empty_inputs.2.2.1 _ (by decide)⟩

/-! ### Auxiliary facts for idempotence -/

theorem claudeDedup_mem_fields :
    ∀ (cands : List ClaudeCitationAnn) (c : Citation),
      c ∈ claudeDedup cands [] → c.url ≠ "" ∧ c.title ≠ "" := by
  intro cands c hc
  rw [claudeDedup_nil_seen] at hc
  exact claudeValidCands_fields _ c (keepFirstByUrl_mem _ c hc)

theorem oaDedup_mem_fields :
    ∀ (anns : List OAAnn) (c : Citation),
      c ∈ oaDedupAnns anns [] → c.url ≠ "" ∧ c.title ≠ "" := by
  intro anns c hc
  rw [oaDedup_nil_acc] at hc
  exact oaValidRecs_fields _ c (keepFirstRecord_mem _ c hc)

theorem claudeValidCands_map_citTo :
    ∀ L : List Citation, (∀ c ∈ L, c.url ≠ "" ∧ c.title ≠ "") →
      claudeValidCands (L.map citToClaudeAnn) = L := by
  intro L
  induction L with
  | nil => intro _; rfl
  | cons c L ih =>
    intro h
    have hc := h c (List.mem_cons_self c L)
    rw [List.map_cons, claudeValidCands, List.filterMap_cons,
      claudeAdmissible_citTo c hc.1 hc.2]
    rw [claudeValidCands] at ih
    rw [ih (fun x hx => h x (List.mem_cons_of_mem c hx))]

theorem oaValidRecs_map_citTo :
    ∀ L : List Citation, (∀ c ∈ L, c.url ≠ "" ∧ c.title ≠ "") →
      oaValidRecs (L.map citToOAAnn) = L := by
  intro L
  induction L with
  | nil => intro _; rfl
  | cons c L ih =>
    intro h
    have hc := h c (List.mem_cons_self c L)
    rw [List.map_cons, oaValidRecs, List.filterMap_cons,
      oaAdmissible_citTo c hc.1 hc.2]
    rw [oaValidRecs] at ih
    rw [ih (fun x hx => h x (List.mem_cons_of_mem c hx))]

/-- Claim C9: both citation de-duplication loops are deterministic pure
functions of the candidate sequence (equal inputs give equal outputs) and
idempotent as a transform: re-running each loop on its own admitted output
(re-injected as candidates of the respective shape) returns that output
unchanged. -/
theorem claim_C9_pure_idempotent :
    (∀ x y : List ClaudeCitationAnn, x = y →
      claudeDedup x [] = claudeDedup y []) ∧
    (∀ cands : List ClaudeCitationAnn,
      claudeDedup ((claudeDedup cands []).map citToClaudeAnn) [] =
        claudeDedup cands []) ∧
    (∀ x y : List OAAnn, x = y → oaDedupAnns x [] = oaDedupAnns y []) ∧
    (∀ anns : List OAAnn,
      oaDedupAnns ((oaDedupAnns anns []).map citToOAAnn) [] =
        oaDedupAnns anns []) := by
  refine ⟨fun x y h => by rw [h], ?_, fun x y h => by rw [h], ?_⟩
  · intro cands
    rw [claudeDedup_nil_seen ((claudeDedup cands []).map citToClaudeAnn),
      claudeValidCands_map_citTo _ (claudeDedup_mem_fields cands)]
    apply keepFirstByUrl_fixpoint
    rw [claudeDedup_nil_seen]
    exact keepFirstByUrl_pairwise _
  · intro anns
    rw [oaDedup_nil_acc ((oaDedupAnns anns []).map citToOAAnn),
      oaValidRecs_map_citTo _ (oaDedup_mem_fields anns)]
    apply keepFirstRecord_fixpoint
    rw [oaDedup_nil_acc]
    exact keepFirstRecord_nodup _

/-- Claim C9 (witness): determinism and idempotence at a concrete
single-candidate input for both adapters. -/
theorem claim_C9_witness :
    claudeDedup [⟨some "web_search_result_location", some "u", some "t"⟩] [] =
      claudeDedup [⟨some "web_search_result_location", some "u", some "t"⟩] [] ∧
    claudeDedup ((claudeDedup
        [⟨some "web_search_result_location", some "u", some "t"⟩] []).map
          citToClaudeAnn) [] =
      claudeDedup [⟨some "web_search_result_location", some "u", some "t"⟩] [] ∧
    oaDedupAnns [⟨some "url_citation", some "u", some "t"⟩] [] =
      oaDedupAnns [⟨some "url_citation", some "u", some "t"⟩] [] ∧
    oaDedupAnns ((oaDedupAnns
        [⟨some "url_citation", some "u", some "t"⟩] []).map citToOAAnn) [] =
      oaDedupAnns [⟨some "url_citation", some "u", some "t"⟩] [] :=
  ⟨claim_C9_pure_idempotent.1
      [⟨some "web_search_result_location", some "u", some "t"⟩]
      [⟨some "web_search_result_location", some "u", some "t"⟩] rfl,
    claim_C9_pure_idempotent.2.1
      [⟨some "web_search_result_location", some "u", some "t"⟩],
    claim_C9_pure_idempotent.2.2.1
      [⟨some "url_citation", some "u", some "t"⟩]
      [⟨some "url_citation", some "u", some "t"⟩] rfl,
    claim_C9_pure_idempotent.2.2.2
      [⟨some "url_citation", some "u", some "t"⟩]⟩

/-- Claim C3 (counterexample): the Claude adapter wraps `model_dump()` in no
`try`/`except`: with a serializer that fails, the failure is returned to
(propagated at) the caller instead of falling back to the unserialized
response, so "for both adapters ... a serialization failure is never
propagated" fails as stated. -/
theorem claim_C3_counterexample :
    claudeSerializeRaw
        (fun _ : Nat => (Except.error 7 : Except Nat (Nat × List Nat))) 0 =
      Except.error 7 := rfl

/-- Claim C3 (amended): the OpenAI adapter suppresses serialization warnings
(none are emitted) and falls back to storing the unserialized response when
serialization fails, never propagating the failure; the Claude adapter
serializes directly, with no warning suppression and no fallback, so a
serialization failure propagates to its caller. -/
theorem claim_C3_amended :
    (∀ (ρ δ ε ω : Type) (model_dump : ρ → Except ε (δ × List ω)) (r : ρ)
        (e : ε), model_dump r = .error e →
      openaiSerializeRaw model_dump r = (.unserialized r, [])) ∧
    (∀ (ρ δ ε ω : Type) (model_dump : ρ → Except ε (δ × List ω)) (r : ρ)
        (d : δ) (w : List ω), model_dump r = .ok (d, w) →
      openaiSerializeRaw model_dump r = (.dumped d, [])) ∧
    (∀ (ρ δ ε ω : Type) (model_dump : ρ → Except ε (δ × List ω)) (r : ρ)
        (e : ε), model_dump r = .error e →
      claudeSerializeRaw model_dump r = .error e) := by
  refine ⟨?_, ?_, ?_⟩
  · intro ρ δ ε ω md r e h
    simp [openaiSerializeRaw, h]
  · intro ρ δ ε ω md r d w h
    simp [openaiSerializeRaw, h]
  · intro ρ δ ε ω md r e h
    simp [claudeSerializeRaw, h]

/-- Claim C3 (witness): concrete failing and succeeding serializers. -/
theorem claim_C3_witness :
    openaiSerializeRaw
        (fun _ : Nat => (Except.error 7 : Except Nat (Nat × List Nat))) 0 =
      (RawResponse.unserialized 0, []) ∧
    openaiSerializeRaw
        (fun _ : Nat => (Except.ok (5, [9]) : Except Nat (Nat × List Nat))) 0 =
      (RawResponse.dumped 5, []) ∧
    claudeSerializeRaw
        (fun _ : Nat => (Except.error 7 : Except Nat (Nat × List Nat))) 1 =
      Except.error 7 :=
  ⟨claim_C3_amended.1 Nat Nat Nat Nat _ 0 7 rfl,
    claim_C3_amended.2.1 Nat Nat Nat Nat _ 0 5 [9] rfl,
    claim_C3_amended.2.2 Nat Nat Nat Nat _ 1 7 rfl⟩

/-- Claim C8 (counterexample): both adapters test the system prompt for
truthiness, not presence: a present but empty system prompt is ignored, so
with `system_prompt = some ""` adapter A sets no system channel and adapter
B's input is the bare prompt rather than `"" ++ "\n\n" ++ prompt`. -/
theorem claim_C8_counterexample :
    openaiFullInput "p" (some "") = "p" ∧
    (claudeBuildKwargs "m" 3 4096 "p" (some "")).system = none ∧
    ("p" : String) ≠ "" ++ "\n\n" ++ "p" := by
  refine ⟨rfl, rfl, ?_⟩
  decide

/-- Claim C8 (amended): for a present and NON-EMPTY system prompt, adapter A
passes it on the separate `system` channel while the user message carries
exactly the prompt, and adapter B sends the single combined string
`system_prompt ++ "\n\n" ++ prompt`; when the system prompt is absent or
empty, adapter B's input is exactly the prompt and adapter A sets no system
channel. -/
theorem claim_C8_amended :
    (∀ (model prompt s : String) (mu mt : Nat), s ≠ "" →
      (claudeBuildKwargs model mu mt prompt (some s)).system = some s ∧
      (claudeBuildKwargs model mu mt prompt (some s)).messages =
        [("user", prompt)]) ∧
    (∀ prompt s : String, s ≠ "" →
      openaiFullInput prompt (some s) = s ++ "\n\n" ++ prompt) ∧
    (∀ prompt : String, openaiFullInput prompt none = prompt ∧
      openaiFullInput prompt (some "") = prompt) ∧
    (∀ (model prompt : String) (mu mt : Nat),
      (claudeBuildKwargs model mu mt prompt none).system = none ∧
      (claudeBuildKwargs model mu mt prompt (some "")).system = none ∧
      (claudeBuildKwargs model mu mt prompt none).messages =
        [("user", prompt)]) := by
  refine ⟨?_, ?_, ?_, ?_⟩
  · intro model prompt s mu mt h
    constructor <;> simp [claudeBuildKwargs, h]
  · intro prompt s h
    simp [openaiFullInput, h]
  · intro prompt
    constructor <;> rfl
  · intro model prompt mu mt
    refine ⟨rfl, rfl, rfl⟩

/-- Claim C8 (witness): a concrete non-empty system prompt. -/
theorem claim_C8_witness :
    (claudeBuildKwargs "m" 3 4096 "p" (some "sys")).system = some "sys" ∧
    (claudeBuildKwargs "m" 3 4096 "p" (some "sys")).messages = [("user", "p")] ∧
    openaiFullInput "p" (some "sys") = "sys" ++ "\n\n" ++ "p" :=
  ⟨(claim_C8_amended.1 "m" "p" "sys" 3 4096 (by decide)).1,
    (claim_C8_amended.1 "m" "p" "sys" 3 4096 (by decide)).2,
    claim_C8_amended.2.1 "p" "sys" (by decide)⟩
